import Mathlib

/-!
Shallow embedding of `srtpy/srt_translator.py` (the srt-ai repository).

The program parses an SRT subtitle file into segments, groups the segments
into token-budgeted batches, sends each batch text (segment texts joined
with a pipe character) to a translation gateway, splits the translated
text back on the pipe character, re-pairs fragments with the original
timestamps by a run-global running index, and renders the result as SRT.

Modelling conventions:
  * Python strings are Lean `String` (a list of unicode scalar chars);
    `len` is `String.length`.
  * Python whitespace (for `str.strip`) is modelled by the ASCII
    whitespace set, which covers all inputs considered here.
  * A Python exception escaping a function is modelled by `Option`
    (`none` = the call raised).
  * The translation gateway is an explicit function argument; the
    backend used by the retry loop is a function from the attempt
    number (0-based) to the attempt's outcome.
  * File, environment and network I/O sit outside the core and are not
    modelled; `translateSrtContent` is `translate_srt_file` applied to
    the file content, with the gateway abstracted.
-/

/-- One subtitle entry, as built by `parse_segment`: a numeric index,
the verbatim timestamp line, and the text. -/
structure Segment where
  id : Int
  timestamp : String
  text : String
deriving DecidableEq, Repr

/-- ASCII whitespace, modelling the character class stripped by Python
`str.strip()` on the inputs in scope. -/
def isPySpace (c : Char) : Bool :=
  c = ' ' || c = '\t' || c = '\n' || c = '\r' || c = '\x0b' || c = '\x0c'

/-- Python `s.strip()`: remove leading and trailing whitespace. -/
def pyStrip (s : String) : String :=
  String.mk (((s.data.dropWhile isPySpace).reverse.dropWhile isPySpace).reverse)

/-- Scanner for `re.split(r'\r\n|\n', text)`: split at every CRLF or LF. -/
def splitLinesAux : List Char → List Char → List (List Char)
  | [], acc => [acc.reverse]
  | '\r' :: '\n' :: rest, acc => acc.reverse :: splitLinesAux rest []
  | '\n' :: rest, acc => acc.reverse :: splitLinesAux rest []
  | c :: rest, acc => splitLinesAux rest (c :: acc)

/-- Python `re.split(r'\r\n|\n', text)`. -/
def pySplitLines (s : String) : List String :=
  (splitLinesAux s.data []).map String.mk

/-- Scanner for `re.split(r'\r\n\r\n|\n\n', content)`: split at every
blank line (CRLF CRLF or LF LF), the four-character alternative first. -/
def splitBlocksAux : List Char → List Char → List (List Char)
  | [], acc => [acc.reverse]
  | '\r' :: '\n' :: '\r' :: '\n' :: rest, acc => acc.reverse :: splitBlocksAux rest []
  | '\n' :: '\n' :: rest, acc => acc.reverse :: splitBlocksAux rest []
  | c :: rest, acc => splitBlocksAux rest (c :: acc)

/-- Python `re.split(r'\r\n\r\n|\n\n', content)`. -/
def pySplitBlocks (s : String) : List String :=
  (splitBlocksAux s.data []).map String.mk

/-- Scanner for Python `s.split(sep)` with a one-character separator. -/
def splitOnCharAux (sep : Char) : List Char → List Char → List (List Char)
  | [], acc => [acc.reverse]
  | c :: rest, acc =>
    if c = sep then acc.reverse :: splitOnCharAux sep rest []
    else splitOnCharAux sep rest (c :: acc)

/-- Python `s.split(sep)` for a one-character separator (`"|"` here). -/
def pySplitOnChar (sep : Char) (s : String) : List String :=
  (splitOnCharAux sep s.data []).map String.mk

/-- Python `sep.join(xs)`. -/
def pyJoin (sep : String) : List String → String
  | [] => ""
  | x :: rest => rest.foldl (fun a b => a ++ sep ++ b) x

/-- Validity of the character tail of a Python integer literal body:
digits, with each underscore standing between two digits. -/
def numTail : List Char → Bool
  | [] => true
  | '_' :: c :: rest => c.isDigit && numTail rest
  | c :: rest => c.isDigit && numTail rest

/-- Validity of the whole body of a Python integer literal after the
optional sign: nonempty, starting with a digit, underscores only
between digits. -/
def numValid : List Char → Bool
  | [] => false
  | c :: rest => c.isDigit && numTail rest

/-- Decimal value of the digits of a literal body, skipping underscores. -/
def numVal (cs : List Char) : Nat :=
  cs.foldl (fun a c => if c.isDigit then a * 10 + (c.toNat - 48) else a) 0

/-- Python `int(s)` on decimal strings: strip whitespace, optional sign,
then a digit body; `none` models a raised `ValueError`. -/
def pyInt (s : String) : Option Int :=
  match (pyStrip s).data with
  | '+' :: rest => if numValid rest then some (numVal rest : Int) else none
  | '-' :: rest => if numValid rest then some (-(numVal rest : Int)) else none
  | rest => if numValid rest then some (numVal rest : Int) else none

/-- Embedding of `parse_segment`: split the block into lines; the first
line is the index (degraded to 0 when `int` raises `ValueError`), the
second the timestamp, the remaining lines joined with single spaces are
the text. A block with fewer than two lines makes `lines[1]` raise
`IndexError`, modelled as `none`. -/
def parse_segment (text : String) : Option Segment :=
  match pySplitLines text with
  | l0 :: l1 :: rest => some ⟨(pyInt l0).getD 0, l1, pyJoin " " rest⟩
  | _ => none

/-- Embedding of the inner `estimate_tokens` helper: `len(text) // 4 + 1`. -/
def estimate_tokens (text : String) : Nat :=
  text.length / 4 + 1

/-- Loop of `group_segments_by_token_length`: `cur` is `current_group`
(in order), `cnt` is `current_group_token_count`. On acceptance the
count grows by the estimate plus one for the delimiter; on overflow the
current group is appended (even when empty) and the new group is seeded
with the overflowing segment, its count the bare estimate. -/
def groupGo (maxTokens : Nat) : List Segment → List Segment → Nat → List (List Segment)
  | [], cur, _ => if cur = [] then [] else [cur]
  | s :: rest, cur, cnt =>
    let est := estimate_tokens s.text
    if cnt + est ≤ maxTokens then
      groupGo maxTokens rest (cur ++ [s]) (cnt + est + 1)
    else
      cur :: groupGo maxTokens rest [s] est

/-- Embedding of `group_segments_by_token_length`. -/
def group_segments_by_token_length (segments : List Segment) (maxTokens : Nat) :
    List (List Segment) :=
  groupGo maxTokens segments [] 0

/-- Retry loop of `retrieve_translation`: `retries` counts down from 3,
`attempt` is the 0-based index of the next backend invocation. The
result pairs the outcome with the total number of invocations made.
The `ok ""` at fuel 0 models the unreachable `return ""` after the loop. -/
def retrieveGo (backend : Nat → Except String String) :
    Nat → Nat → Except String String × Nat
  | 0, attempt => (Except.ok "", attempt)
  | r + 1, attempt =>
    match backend attempt with
    | Except.ok v => (Except.ok v, attempt + 1)
    | Except.error e =>
      if r ≥ 1 then retrieveGo backend r (attempt + 1)
      else (Except.error e, attempt + 1)

/-- Embedding of `retrieve_translation` with the Gemini call abstracted
into `backend`: up to 3 total attempts, the last failure re-raised. -/
def retrieve_translation (backend : Nat → Except String String) :
    Except String String × Nat :=
  retrieveGo backend 3 0

/-- One reconciled output unit, as rendered into an SRT block. -/
structure OutputUnit where
  index : Nat
  timestamp : String
  text : String
deriving DecidableEq, Repr

/-- Timestamp lookup of the reconciler, transcribing
`segments[current_index - 1] if current_index <= len(segments) else None`
followed by `original_segment.timestamp if original_segment else ""`:
the original segment's timestamp at the 1-based position `j` over the
whole run's segment list, or the empty string when `j` exceeds the
total segment count. -/
def timestampAt (segments : List Segment) (j : Nat) : String :=
  if j ≤ segments.length then
    ((segments.get? (j - 1)).map Segment.timestamp).getD ""
  else ""

/-- Reconciler loop body of `translate_srt_file`: walk the fragments of
one translated batch; a blank fragment is skipped, a non-blank fragment
increments the running index, looks up the original segment at the
1-based running index over the whole run (empty timestamp when the index
exceeds the segment count) and emits one unit with the trimmed fragment.
Returns the final running index and the emitted units. -/
def reconcileBatch (segments : List Segment) (idx : Nat) :
    List String → Nat × List OutputUnit
  | [] => (idx, [])
  | f :: rest =>
    if pyStrip f = "" then reconcileBatch segments idx rest
    else
      let next := reconcileBatch segments (idx + 1) rest
      (next.1, ⟨idx + 1, timestampAt segments (idx + 1), pyStrip f⟩ :: next.2)

/-- Per-group loop of `translate_srt_file`: join the group's texts with
the pipe delimiter, call the gateway, skip the batch when the result is
the empty string, otherwise split on the pipe and reconcile, threading
the run-global running index. -/
def processGroups (gateway : String → String) (segments : List Segment) :
    Nat → List (List Segment) → List OutputUnit
  | _, [] => []
  | idx, g :: rest =>
    let text := pyJoin "|" (g.map Segment.text)
    let translated := gateway text
    if translated = "" then processGroups gateway segments idx rest
    else
      let r := reconcileBatch segments idx (pySplitOnChar '|' translated)
      r.2 ++ processGroups gateway segments r.1 rest

/-- Serializer: one unit rendered as the f-string
`"{current_index}\n{timestamp}\n{text}\n\n"`. -/
def renderUnit (u : OutputUnit) : String :=
  toString u.index ++ "\n" ++ u.timestamp ++ "\n" ++ u.text ++ "\n\n"

/-- Serializer: `"".join(translated_content)`. -/
def serialize (units : List OutputUnit) : String :=
  String.join (units.map renderUnit)

/-- The hard-coded `MAX_TOKENS_IN_SEGMENT` budget. -/
def MAX_TOKENS_IN_SEGMENT : Nat := 700

/-- Core of `translate_srt_file` on the file content, gateway
abstracted: split the content into blocks on blank lines, keep the
non-whitespace blocks, parse them (a parse exception propagates as
`none`), group under the hard-coded budget, translate and reconcile
group by group, and serialize. -/
def translateSrtContent (gateway : String → String) (content : String) :
    Option String :=
  let blocks := (pySplitBlocks content).filter (fun s => pyStrip s ≠ "")
  (blocks.mapM parse_segment).map (fun segments =>
    let groups := group_segments_by_token_length segments MAX_TOKENS_IN_SEGMENT
    serialize (processGroups gateway segments 0 groups))

/-- Number of gateway invocations `translate_srt_file` performs on the
given content: one `retrieve_translation` call per group. -/
def gatewayCallCount (content : String) : Option Nat :=
  let blocks := (pySplitBlocks content).filter (fun s => pyStrip s ≠ "")
  (blocks.mapM parse_segment).map (fun segments =>
    (group_segments_by_token_length segments MAX_TOKENS_IN_SEGMENT).length)

/-- Combined estimated cost of a batch as the spec measures it: the sum
of the per-segment estimates plus one delimiter unit between each pair
of consecutive segments. -/
def batchCost (g : List Segment) : Nat :=
  (g.map (fun s => estimate_tokens s.text)).sum + (g.length - 1)

/-- C1: on the two-segment input with a gateway stub returning
`"Bonjour|Monde"`, `translate_srt_file` returns exactly the two SRT
blocks with the original timestamps and translated texts, each rendered
by the serializer and concatenated. -/
theorem end_to_end_two_segments :
    translateSrtContent (fun _ => "Bonjour|Monde")
        "1\n00:00:00,000 --> 00:00:02,000\nHello\n\n2\n00:00:02,000 --> 00:00:04,000\nWorld\n\n" =
      some "1\n00:00:00,000 --> 00:00:02,000\nBonjour\n\n2\n00:00:02,000 --> 00:00:04,000\nMonde\n\n" ∧
    "1\n00:00:00,000 --> 00:00:02,000\nBonjour\n\n2\n00:00:02,000 --> 00:00:04,000\nMonde\n\n" =
      renderUnit ⟨1, "00:00:00,000 --> 00:00:02,000", "Bonjour"⟩ ++
        renderUnit ⟨2, "00:00:02,000 --> 00:00:04,000", "Monde"⟩ :=
  ⟨rfl, rfl⟩

theorem groupGo_join (maxTokens : Nat) :
    ∀ (segs cur : List Segment) (cnt : Nat),
      (groupGo maxTokens segs cur cnt).flatten = cur ++ segs := by
  intro segs
  induction segs with
  | nil =>
    intro cur cnt
    by_cases h : cur = [] <;> simp [groupGo, h]
  | cons s rest ih =>
    intro cur cnt
    by_cases h : cnt + estimate_tokens s.text ≤ maxTokens
    · simp [groupGo, h, ih]
    · simp [groupGo, h, ih]

/-- C2: for every segment sequence and every budget at least 1, the
batches produced by `group_segments_by_token_length`, concatenated in
order, are exactly the input sequence. -/
theorem batcher_completeness (segs : List Segment) (maxTokens : Nat)
    (h : 1 ≤ maxTokens) :
    (group_segments_by_token_length segs maxTokens).flatten = segs :=
  groupGo_join maxTokens segs [] 0

theorem batcher_completeness_witness :
    1 ≤ 5 ∧
      (group_segments_by_token_length
        [⟨1, "00:00:00,000 --> 00:00:02,000", "Hello"⟩,
         ⟨2, "00:00:02,000 --> 00:00:04,000", "World"⟩] 5).flatten =
        [⟨1, "00:00:00,000 --> 00:00:02,000", "Hello"⟩,
         ⟨2, "00:00:02,000 --> 00:00:04,000", "World"⟩] :=
  ⟨by decide, batcher_completeness _ 5 (by decide)⟩

/-- C8: evaluating the batcher at a first segment whose lone estimated
cost (2) exceeds the budget (1) shows the code appending the empty
`current_group` as a leading batch, contradicting batch non-emptiness. -/
theorem batcher_empty_batch_bug :
    group_segments_by_token_length [⟨1, "ts", "aaaa"⟩] 1 =
      [[], [⟨1, "ts", "aaaa"⟩]] := by
  rfl

theorem estimate_tokens_pos (text : String) : 1 ≤ estimate_tokens text :=
  Nat.le_add_left 1 _

theorem batchCost_singleton (s : Segment) : batchCost [s] = estimate_tokens s.text := by
  simp [batchCost]

theorem batchCost_append_singleton (cur : List Segment) (s : Segment) (h : cur ≠ []) :
    batchCost (cur ++ [s]) = batchCost cur + estimate_tokens s.text + 1 := by
  have hl : 0 < cur.length := List.length_pos.mpr h
  simp only [batchCost, List.map_append, List.sum_append, List.length_append,
    List.map_cons, List.map_nil, List.sum_cons, List.sum_nil, List.length_cons,
    List.length_nil]
  omega

theorem groupGo_cost (maxTokens : Nat) :
    ∀ (segs cur : List Segment) (cnt : Nat),
      (cur ≠ [] → batchCost cur ≤ cnt) →
      (2 ≤ cur.length → batchCost cur ≤ maxTokens + 1) →
      ∀ g ∈ groupGo maxTokens segs cur cnt, 2 ≤ g.length → batchCost g ≤ maxTokens + 1 := by
  intro segs
  induction segs with
  | nil =>
    intro cur cnt h1 h2 g hg
    by_cases hc : cur = []
    · simp [groupGo, hc] at hg
    · simp [groupGo, hc] at hg
      subst hg; exact h2
  | cons s rest ih =>
    intro cur cnt h1 h2 g hg
    by_cases hc : cnt + estimate_tokens s.text ≤ maxTokens
    · simp only [groupGo, hc, if_pos] at hg
      refine ih (cur ++ [s]) (cnt + estimate_tokens s.text + 1) ?_ ?_ g hg
      · intro _
        by_cases hcur : cur = []
        · subst hcur
          simp only [List.nil_append, batchCost_singleton]
          omega
        · rw [batchCost_append_singleton cur s hcur]
          have := h1 hcur
          omega
      · intro hlen
        have hcur : cur ≠ [] := by
          intro hnil
          subst hnil
          simp at hlen
        rw [batchCost_append_singleton cur s hcur]
        have := h1 hcur
        omega
    · simp only [groupGo, hc, if_neg, not_false_iff, List.mem_cons] at hg
      rcases hg with hg | hg
      · subst hg; exact h2
      · refine ih [s] (estimate_tokens s.text) ?_ ?_ g hg
        · intro _
          rw [batchCost_singleton]
        · intro hlen
          simp at hlen

theorem length_le_sum_est :
    ∀ g : List Segment, g.length ≤ (g.map (fun s => estimate_tokens s.text)).sum := by
  intro g
  induction g with
  | nil => simp
  | cons a t ih =>
    have := estimate_tokens_pos a.text
    simp only [List.length_cons, List.map_cons, List.sum_cons]
    omega

theorem sum_est_lower (s : Segment) :
    ∀ g : List Segment, s ∈ g →
      estimate_tokens s.text + (g.length - 1) ≤ (g.map (fun x => estimate_tokens x.text)).sum := by
  intro g
  induction g with
  | nil => intro h; cases h
  | cons a t ih =>
    intro hs
    simp only [List.map_cons, List.sum_cons, List.length_cons]
    rcases List.mem_cons.mp hs with h | h
    · subst h
      have := length_le_sum_est t
      omega
    · have h1 := ih h
      have h2 := estimate_tokens_pos a.text
      have h3 : 0 < t.length := List.length_pos.mpr (List.ne_nil_of_mem h)
      omega

/-- C3 amended: a batch of two or more segments can exceed the budget,
but never by more than one unit (the delimiter unit the seeding path
omits); and a segment whose own estimate exceeds the budget is always
alone in its batch. -/
theorem batcher_budget_soft (segs : List Segment) (maxTokens : Nat)
    (g : List Segment) (hg : g ∈ group_segments_by_token_length segs maxTokens) :
    (2 ≤ g.length → batchCost g ≤ maxTokens + 1) ∧
    (∀ s ∈ g, maxTokens < estimate_tokens s.text → g = [s]) := by
  have hcost : 2 ≤ g.length → batchCost g ≤ maxTokens + 1 :=
    groupGo_cost maxTokens segs [] 0 (fun h => absurd rfl h) (by simp) g hg
  refine ⟨hcost, ?_⟩
  intro s hs hover
  have hlen1 : 1 ≤ g.length := List.length_pos.mpr (List.ne_nil_of_mem hs)
  have hlen : g.length < 2 := by
    by_contra hle
    push_neg at hle
    have hbound := hcost hle
    have hsum := sum_est_lower s g hs
    have : maxTokens + 1 < batchCost g := by
      unfold batchCost
      omega
    omega
  have hone : g.length = 1 := by omega
  obtain ⟨a, ha⟩ := List.length_eq_one.mp hone
  subst ha
  rcases List.mem_singleton.mp hs with rfl
  rfl

/-- Text of sixteen characters: its token estimate is 16 / 4 + 1 = 5. -/
def sixteenChars : String := "aaaaaaaaaaaaaaaa"

def c3segA : Segment := ⟨1, "t1", sixteenChars⟩

def c3segB : Segment := ⟨2, "t2", sixteenChars⟩

def c3segC : Segment := ⟨3, "t3", sixteenChars⟩

/-- C3 counterexample: with budget 10 and three segments of estimate 5
each, the batcher seeds the second batch with the overflowing second
segment and then accepts the third, producing a two-segment batch whose
combined cost 5 + 5 + 1 = 11 exceeds the budget. -/
theorem batcher_budget_counterexample :
    [c3segB, c3segC] ∈ group_segments_by_token_length [c3segA, c3segB, c3segC] 10 ∧
    2 ≤ ([c3segB, c3segC] : List Segment).length ∧
    10 < batchCost [c3segB, c3segC] := by
  decide

theorem batcher_budget_soft_witness :
    (2 ≤ ([c3segB, c3segC] : List Segment).length → batchCost [c3segB, c3segC] ≤ 10 + 1) ∧
    (∀ s ∈ [c3segB, c3segC], 10 < estimate_tokens s.text → [c3segB, c3segC] = [s]) :=
  batcher_budget_soft [c3segA, c3segB, c3segC] 10 [c3segB, c3segC] (by decide)

/-- C6: a backend failing on its first two invocations and succeeding
on the third makes `retrieve_translation` return the success value
after exactly 3 invocations; an always-failing backend is invoked
exactly 3 times and the third failure is re-raised. -/
theorem retry_gateway_semantics (b c : Nat → Except String String)
    (e0 e1 v : String) (err : Nat → String)
    (h0 : b 0 = Except.error e0) (h1 : b 1 = Except.error e1)
    (h2 : b 2 = Except.ok v)
    (hc : ∀ i, c i = Except.error (err i)) :
    retrieve_translation b = (Except.ok v, 3) ∧
    retrieve_translation c = (Except.error (err 2), 3) := by
  constructor
  · simp [retrieve_translation, retrieveGo, h0, h1, h2]
  · simp [retrieve_translation, retrieveGo, hc 0, hc 1, hc 2]

theorem retry_gateway_semantics_witness :
    retrieve_translation (fun i => if i < 2 then Except.error "boom" else Except.ok "done") =
      (Except.ok "done", 3) ∧
    retrieve_translation (fun _ => Except.error "boom") =
      (Except.error "boom", 3) :=
  retry_gateway_semantics _ _ "boom" "boom" "done" (fun _ => "boom")
    rfl rfl rfl (fun _ => rfl)

/-- C5: the reconciler consumes the split fragments of one translated
batch with a run-global running index: blank fragments are skipped
without advancing the index, and the k-th non-blank fragment (0-based
over the kept fragments) is emitted trimmed at index `idx + 1 + k` with
the timestamp of the original segment at that 1-based position in the
whole run's segment list — the empty string once the position exceeds
the total segment count. -/
theorem reconciler_global_index (segs : List Segment) :
    ∀ (frags : List String) (idx : Nat),
      reconcileBatch segs idx frags =
        (idx + frags.countP (fun f => pyStrip f ≠ ""),
         (frags.filter (fun f => pyStrip f ≠ "")).mapIdx
           (fun k f => ⟨idx + 1 + k, timestampAt segs (idx + 1 + k), pyStrip f⟩)) := by
  intro frags
  induction frags with
  | nil => intro idx; simp [reconcileBatch]
  | cons f rest ih =>
    intro idx
    by_cases h : pyStrip f = ""
    · simp [reconcileBatch, h, ih idx]
    · have harg :
          (fun (k : Nat) (t : String) =>
            (⟨idx + 1 + (k + 1), timestampAt segs (idx + 1 + (k + 1)), pyStrip t⟩ :
              OutputUnit)) =
          (fun k t => ⟨idx + 1 + 1 + k, timestampAt segs (idx + 1 + 1 + k), pyStrip t⟩) := by
        funext k t
        have hk : idx + 1 + (k + 1) = idx + 1 + 1 + k := by omega
        rw [hk]
      simp only [reconcileBatch, if_neg h, ih (idx + 1), List.countP_cons, List.filter_cons,
        List.mapIdx_cons, h, decide_not]
      simp [h, harg]
      omega

theorem reconcileBatch_len_range (segs : List Segment) :
    ∀ (frags : List String) (idx : Nat),
      (reconcileBatch segs idx frags).1 = idx + (reconcileBatch segs idx frags).2.length ∧
      (reconcileBatch segs idx frags).2.map OutputUnit.index =
        List.range' (idx + 1) (reconcileBatch segs idx frags).2.length := by
  intro frags
  induction frags with
  | nil => intro idx; simp [reconcileBatch]
  | cons f rest ih =>
    intro idx
    by_cases h : pyStrip f = ""
    · simpa [reconcileBatch, h] using ih idx
    · have h1 := (ih (idx + 1)).1
      have h2 := (ih (idx + 1)).2
      simp only [reconcileBatch, if_neg h, List.length_cons, List.map_cons]
      constructor
      · omega
      · rw [h2, List.range'_succ]

theorem list_range'_append (s a b : Nat) :
    List.range' s a ++ List.range' (s + a) b = List.range' s (a + b) := by
  rw [List.range'_append_1 s a b, Nat.add_comm b a]

theorem processGroups_indices (gw : String → String) (segs : List Segment) :
    ∀ (groups : List (List Segment)) (idx : Nat),
      (processGroups gw segs idx groups).map OutputUnit.index =
        List.range' (idx + 1) (processGroups gw segs idx groups).length := by
  intro groups
  induction groups with
  | nil => intro idx; simp [processGroups]
  | cons g rest ih =>
    intro idx
    by_cases h : gw (pyJoin "|" (g.map Segment.text)) = ""
    · simpa [processGroups, h] using ih idx
    · have hr := reconcileBatch_len_range segs
        (pySplitOnChar '|' (gw (pyJoin "|" (g.map Segment.text)))) idx
      simp only [processGroups, if_neg h, List.map_append, List.length_append]
      rw [hr.2, ih _, hr.1, Nat.add_right_comm idx _ 1]
      exact list_range'_append (idx + 1) _ _

/-- C7: across a full run the emitted output indices are exactly the
consecutive integers 1, 2, 3, ... with no gaps; under the claim's
assumption that the number of emitted units (one per non-blank
translated fragment) equals the segment count, they are exactly
1 .. number of segments. -/
theorem output_indices_consecutive (gw : String → String) (segs : List Segment)
    (groups : List (List Segment))
    (h : (processGroups gw segs 0 groups).length = segs.length) :
    (processGroups gw segs 0 groups).map OutputUnit.index =
      List.range' 1 segs.length := by
  rw [← h]
  exact processGroups_indices gw segs groups 0

def demoSegs : List Segment :=
  [⟨1, "00:00:00,000 --> 00:00:02,000", "Hello"⟩,
   ⟨2, "00:00:02,000 --> 00:00:04,000", "World"⟩]

theorem output_indices_consecutive_witness :
    (processGroups (fun _ => "Bonjour|Monde") demoSegs 0 [demoSegs]).map OutputUnit.index =
      List.range' 1 demoSegs.length :=
  output_indices_consecutive _ demoSegs [demoSegs] (by decide)

theorem splitOnCharAux_chars (sep : Char) :
    ∀ (cs acc : List Char), ∀ piece ∈ splitOnCharAux sep cs acc, ∀ c ∈ piece, c ∈ cs ∨ c ∈ acc := by
  intro cs
  induction cs with
  | nil =>
    intro acc piece hp c hc
    simp only [splitOnCharAux, List.mem_singleton] at hp
    subst hp
    exact Or.inr (List.mem_reverse.mp hc)
  | cons x rest ih =>
    intro acc piece hp c hc
    by_cases hx : x = sep
    · simp only [splitOnCharAux, if_pos hx, List.mem_cons] at hp
      rcases hp with hp | hp
      · subst hp
        exact Or.inr (List.mem_reverse.mp hc)
      · rcases ih [] piece hp c hc with h1 | h1
        · exact Or.inl (List.mem_cons_of_mem x h1)
        · cases h1
    · simp only [splitOnCharAux, if_neg hx] at hp
      rcases ih (x :: acc) piece hp c hc with h1 | h1
      · exact Or.inl (List.mem_cons_of_mem x h1)
      · rcases List.mem_cons.mp h1 with h2 | h2
        · subst h2
          exact Or.inl (List.mem_cons_self c rest)
        · exact Or.inr h2

theorem splitBlocksAux_chars :
    ∀ (cs acc : List Char), ∀ piece ∈ splitBlocksAux cs acc, ∀ c ∈ piece, c ∈ cs ∨ c ∈ acc := by
  intro cs acc
  induction cs, acc using splitBlocksAux.induct with
  | case1 acc =>
    intro piece hp c hc
    simp only [splitBlocksAux, List.mem_singleton] at hp
    subst hp
    exact Or.inr (List.mem_reverse.mp hc)
  | case2 rest acc ih =>
    intro piece hp c hc
    simp only [splitBlocksAux, List.mem_cons] at hp
    rcases hp with hp | hp
    · subst hp
      exact Or.inr (List.mem_reverse.mp hc)
    · rcases ih piece hp c hc with h | h
      · exact Or.inl (by simp [h])
      · cases h
  | case3 rest acc ih =>
    intro piece hp c hc
    simp only [splitBlocksAux, List.mem_cons] at hp
    rcases hp with hp | hp
    · subst hp
      exact Or.inr (List.mem_reverse.mp hc)
    · rcases ih piece hp c hc with h | h
      · exact Or.inl (by simp [h])
      · cases h
  | case4 x rest acc h1 h2 ih =>
    intro piece hp c hc
    rw [splitBlocksAux] at hp
    · rcases ih piece hp c hc with h | h
      · exact Or.inl (List.mem_cons_of_mem x h)
      · rcases List.mem_cons.mp h with h | h
        · subst h
          exact Or.inl (List.mem_cons_self c rest)
        · exact Or.inr h
    · exact h1
    · exact h2

theorem pyStrip_eq_empty (s : String) (h : ∀ c ∈ s.data, isPySpace c) :
    pyStrip s = "" := by
  have hd : s.data.dropWhile isPySpace = [] := by
    rw [List.dropWhile_eq_nil_iff]
    exact h
  simp [pyStrip, hd]

theorem reconcileBatch_all_blank (segs : List Segment) :
    ∀ (frags : List String) (idx : Nat), (∀ f ∈ frags, pyStrip f = "") →
      reconcileBatch segs idx frags = (idx, []) := by
  intro frags
  induction frags with
  | nil => intro idx _; rfl
  | cons f rest ih =>
    intro idx h
    have hf : pyStrip f = "" := h f (List.mem_cons_self f rest)
    simp only [reconcileBatch, if_pos hf]
    exact ih idx (fun g hg => h g (List.mem_cons_of_mem f hg))

/-- C9: when the gateway returns an empty or whitespace-only string for
a batch, the run does not fail, the batch contributes no output units,
the running index is not advanced, and processing continues: the run
behaves exactly as with that batch removed. -/
theorem blank_translation_skips_batch (gw : String → String) (segs : List Segment)
    (idx : Nat) (g : List Segment) (rest : List (List Segment))
    (h : ∀ c ∈ (gw (pyJoin "|" (g.map Segment.text))).data, isPySpace c) :
    processGroups gw segs idx (g :: rest) = processGroups gw segs idx rest := by
  by_cases he : gw (pyJoin "|" (g.map Segment.text)) = ""
  · simp [processGroups, he]
  · have hall : ∀ f ∈ pySplitOnChar '|' (gw (pyJoin "|" (g.map Segment.text))),
        pyStrip f = "" := by
      intro f hf
      simp only [pySplitOnChar, List.mem_map] at hf
      obtain ⟨l, hl, rfl⟩ := hf
      apply pyStrip_eq_empty
      intro c hc
      rcases splitOnCharAux_chars '|' _ [] l hl c hc with h1 | h1
      · exact h c h1
      · cases h1
    have hrec := reconcileBatch_all_blank segs
      (pySplitOnChar '|' (gw (pyJoin "|" (g.map Segment.text)))) idx hall
    simp [processGroups, he, hrec]

theorem blank_translation_skips_batch_witness :
    processGroups (fun _ => "  ") demoSegs 0 [demoSegs] =
      processGroups (fun _ => "  ") demoSegs 0 [] :=
  blank_translation_skips_batch _ demoSegs 0 demoSegs [] (by decide)

theorem pySplitBlocks_all_space (content : String)
    (h : ∀ c ∈ content.data, isPySpace c) :
    ∀ b ∈ pySplitBlocks content, pyStrip b = "" := by
  intro b hb
  simp only [pySplitBlocks, List.mem_map] at hb
  obtain ⟨l, hl, rfl⟩ := hb
  apply pyStrip_eq_empty
  intro c hc
  rcases splitBlocksAux_chars content.data [] l hl c hc with h1 | h1
  · exact h c h1
  · cases h1

/-- C10: on content that is empty or consists only of whitespace and
blank lines, `translate_srt_file` makes zero gateway invocations and
returns the empty string. -/
theorem whitespace_content_no_output (gw : String → String) (content : String)
    (h : ∀ c ∈ content.data, isPySpace c) :
    translateSrtContent gw content = some "" ∧ gatewayCallCount content = some 0 := by
  have hb : (pySplitBlocks content).filter (fun s => pyStrip s ≠ "") = [] := by
    rw [List.filter_eq_nil_iff]
    intro a ha
    simp [pySplitBlocks_all_space content h a ha]
  constructor
  · unfold translateSrtContent
    rw [hb]
    rfl
  · unfold gatewayCallCount
    rw [hb]
    rfl

theorem whitespace_content_no_output_witness :
    translateSrtContent (fun _ => "Bonjour") " \n\n \n\t" = some "" ∧
    gatewayCallCount " \n\n \n\t" = some 0 :=
  whitespace_content_no_output _ _ (by decide)

/-- C4 amended: for every segment block that splits into at least two
lines, `parse_segment` returns a Segment without raising: a first line
that is not a valid integer degrades the index to 0, the second line is
stored verbatim as the timestamp, and the remaining lines are joined
with single spaces as the text. A block with fewer than two lines
raises `IndexError` at `lines[1]` (modelled as `none`), so leniency
does not extend to every nonempty non-whitespace block. -/
theorem parse_segment_two_lines (text : String)
    (h : 2 ≤ (pySplitLines text).length) :
    ∃ l0 l1 rest, pySplitLines text = l0 :: l1 :: rest ∧
      parse_segment text = some ⟨(pyInt l0).getD 0, l1, pyJoin " " rest⟩ ∧
      (pyInt l0 = none → parse_segment text = some ⟨0, l1, pyJoin " " rest⟩) := by
  cases hs : pySplitLines text with
  | nil => rw [hs] at h; simp at h
  | cons l0 t =>
    cases t with
    | nil => rw [hs] at h; simp at h
    | cons l1 rest =>
      refine ⟨l0, l1, rest, rfl, ?_, ?_⟩
      · simp [parse_segment, hs]
      · intro hnone
        simp [parse_segment, hs, hnone]

/-- C4 counterexample: the block "Hello" is nonempty and not
whitespace-only, yet `parse_segment` raises (`lines[1]` is out of
range), refuting no-exception totality over all such blocks. -/
theorem parse_segment_single_line_counterexample :
    ("Hello" : String) ≠ "" ∧ pyStrip "Hello" ≠ "" ∧ parse_segment "Hello" = none :=
  ⟨by decide, by decide, rfl⟩

theorem parse_segment_two_lines_witness :
    2 ≤ (pySplitLines "x7\nts --> ts\nHello\nWorld").length ∧
    (∃ l0 l1 rest, pySplitLines "x7\nts --> ts\nHello\nWorld" = l0 :: l1 :: rest ∧
      parse_segment "x7\nts --> ts\nHello\nWorld" =
        some ⟨(pyInt l0).getD 0, l1, pyJoin " " rest⟩ ∧
      (pyInt l0 = none →
        parse_segment "x7\nts --> ts\nHello\nWorld" = some ⟨0, l1, pyJoin " " rest⟩)) :=
  ⟨by decide, parse_segment_two_lines _ (by decide)⟩
